import Mathlib

/-!
Verification of the tac-writer core: the data model and Block (paragraph)
operations of usr/share/tac-writer/core/models.py, and the persistence
store, backup rotation and grouping/export engine of
usr/share/tac-writer/core/services.py, shallowly embedded in Lean.

Wall-clock readings (datetime.now) and generated uuids are passed to the
embedded operations as explicit parameters.  Timestamps are embedded as
natural numbers.  Fractional formatting values (line spacing, indents in
centimetres) carry at most one decimal digit in the source, so they are
embedded as integers scaled by ten (15 stands for 1.5).
-/

/-- The six paragraph types (models.py, class ParagraphType). -/
inductive ParagraphType where
  | title_1
  | title_2
  | introduction
  | argument
  | quote
  | conclusion
deriving DecidableEq, Repr

/-- Paragraph formatting options (models.py, Paragraph.__init__).  Fields
suffixed 10 are scaled by ten as explained in the file comment. -/
structure Formatting where
  font_family : String
  font_size : Nat
  line_spacing10 : Nat
  alignment : String
  indent_first_line10 : Nat
  indent_left10 : Nat
  indent_right10 : Nat
  bold : Bool
  italic : Bool
  underline : Bool
deriving DecidableEq, Repr

/-- Default formatting assigned by Paragraph.__init__: the base dictionary
followed by the per-type update. -/
def default_formatting (t : ParagraphType) : Formatting :=
  let base : Formatting :=
    { font_family := "Liberation Sans", font_size := 12, line_spacing10 := 15,
      alignment := "justify", indent_first_line10 := 0, indent_left10 := 0,
      indent_right10 := 0, bold := false, italic := false, underline := false }
  match t with
  | ParagraphType.title_1 =>
      { base with font_size := 18, bold := true, alignment := "left", line_spacing10 := 12 }
  | ParagraphType.title_2 =>
      { base with font_size := 16, bold := true, alignment := "left", line_spacing10 := 12 }
  | ParagraphType.introduction =>
      { base with indent_first_line10 := 15 }
  | ParagraphType.quote =>
      { base with font_size := 10, indent_left10 := 40, line_spacing10 := 10, italic := true }
  | _ => base

/-- models.py, class Paragraph. -/
structure Paragraph where
  id : String
  type : ParagraphType
  content : String
  created_at : Nat
  modified_at : Nat
  order : Nat
  formatting : Formatting
deriving DecidableEq, Repr

/-- Paragraph.__init__: the generated uuid and the clock are explicit. -/
def mk_paragraph (t : ParagraphType) (content : String) (pid : String) (now : Nat) : Paragraph :=
  { id := pid, type := t, content := content, created_at := now, modified_at := now,
    order := 0, formatting := default_formatting t }

/-- A formatting_updates dictionary: each standard key either absent or
mapped to a new value (models.py Paragraph.update_formatting receives a
Dict of the keys to change). -/
structure FormattingUpdates where
  font_family : Option String := none
  font_size : Option Nat := none
  line_spacing10 : Option Nat := none
  alignment : Option String := none
  indent_first_line10 : Option Nat := none
  indent_left10 : Option Nat := none
  indent_right10 : Option Nat := none
  bold : Option Bool := none
  italic : Option Bool := none
  underline : Option Bool := none
deriving DecidableEq, Repr

/-- dict.update of a formatting dictionary with an updates dictionary. -/
def Formatting.apply_updates (f : Formatting) (u : FormattingUpdates) : Formatting :=
  { font_family := u.font_family.getD f.font_family,
    font_size := u.font_size.getD f.font_size,
    line_spacing10 := u.line_spacing10.getD f.line_spacing10,
    alignment := u.alignment.getD f.alignment,
    indent_first_line10 := u.indent_first_line10.getD f.indent_first_line10,
    indent_left10 := u.indent_left10.getD f.indent_left10,
    indent_right10 := u.indent_right10.getD f.indent_right10,
    bold := u.bold.getD f.bold,
    italic := u.italic.getD f.italic,
    underline := u.underline.getD f.underline }

/-- models.py Paragraph.update_formatting: for TITLE_1 and TITLE_2, when
font_size is not among the updates, the updates dictionary is first
extended with the default title size; then the formatting dictionary is
updated and modified_at bumped. -/
def Paragraph.update_formatting (p : Paragraph) (u : FormattingUpdates) (now : Nat) : Paragraph :=
  let u' :=
    if p.type = ParagraphType.title_1 ∧ u.font_size = none then
      { u with font_size := some 18 }
    else if p.type = ParagraphType.title_2 ∧ u.font_size = none then
      { u with font_size := some 16 }
    else u
  { p with formatting := p.formatting.apply_updates u', modified_at := now }

/-- models.py Paragraph.update_content. -/
def Paragraph.update_content (p : Paragraph) (content : String) (now : Nat) : Paragraph :=
  { p with content := content, modified_at := now }

/-- Project metadata dictionary (models.py, Project.__init__ defaults). -/
structure Metadata where
  author : String := ""
  description : String := ""
  tags : List String := []
  version : String := "1.0"
  language : String := "en"
  subject : String := ""
  institution : String := ""
  course : String := ""
  professor : String := ""
  due_date : Option String := none
deriving DecidableEq, Repr

/-- Page margins in tenths of a centimetre. -/
structure Margins where
  top10 : Nat := 25
  bottom10 : Nat := 25
  left10 : Nat := 30
  right10 : Nat := 30
deriving DecidableEq, Repr

structure HeaderFooter where
  show_page_numbers : Bool := true
  show_header : Bool := false
  show_footer : Bool := false
  header_text : String := ""
  footer_text : String := ""
deriving DecidableEq, Repr

/-- Document formatting dictionary (models.py, Project.__init__ defaults). -/
structure DocumentFormatting where
  page_size : String := "A4"
  margins : Margins := {}
  line_spacing10 : Nat := 15
  font_family : String := "Liberation Sans"
  font_size : Nat := 12
  header_footer : HeaderFooter := {}
deriving DecidableEq, Repr

/-- models.py, class Project. -/
structure Project where
  id : String
  name : String
  created_at : Nat
  modified_at : Nat
  paragraphs : List Paragraph
  metadata : Metadata
  document_formatting : DocumentFormatting
deriving DecidableEq, Repr

/-- Project.__init__ with explicit uuid and clock. -/
def mk_project (name : String) (pid : String) (now : Nat) : Project :=
  { id := pid, name := name, created_at := now, modified_at := now,
    paragraphs := [], metadata := {}, document_formatting := {} }

/-- models.py Project._reorder_paragraphs: `for i, paragraph in
enumerate(self.paragraphs): paragraph.order = i`, generalized over the
starting index for the recursion. -/
def renumber_from : Nat → List Paragraph → List Paragraph
  | _, [] => []
  | i, p :: ps => { p with order := i } :: renumber_from (i + 1) ps

def Project.reorder_paragraphs (proj : Project) : Project :=
  { proj with paragraphs := renumber_from 0 proj.paragraphs }

/-- models.py Project._update_modified_time. -/
def Project.update_modified_time (proj : Project) (now : Nat) : Project :=
  { proj with modified_at := now }

/-- Python list.insert semantics: a negative index counts from the end
(clamped at 0), an overlarge index appends. -/
def py_insert (l : List Paragraph) (i : Int) (x : Paragraph) : List Paragraph :=
  let j : Nat := if i < 0 then (Int.ofNat l.length + i).toNat else min i.toNat l.length
  l.take j ++ x :: l.drop j

/-- models.py Project.add_paragraph.  With no position the new paragraph
gets order = len and is appended; with a position it is inserted there and
the whole list renumbered (its transient order value is immediately
overwritten by the renumber pass).  The created paragraph also returned by
the source is recoverable from the result, so only the project is kept. -/
def Project.add_paragraph (proj : Project) (t : ParagraphType) (content : String)
    (position : Option Int) (pid : String) (now : Nat) : Project :=
  let para := mk_paragraph t content pid now
  let proj' :=
    match position with
    | none =>
        { proj with paragraphs := proj.paragraphs ++ [{ para with order := proj.paragraphs.length }] }
    | some i =>
        ({ proj with paragraphs := py_insert proj.paragraphs i para }).reorder_paragraphs
  proj'.update_modified_time now

/-- models.py Project.remove_paragraph: filter the list by id; when the
count dropped, renumber, bump modified_at and return True, otherwise
return False. -/
def Project.remove_paragraph (proj : Project) (pid : String) (now : Nat) : Project × Bool :=
  let filtered := proj.paragraphs.filter (fun p => p.id != pid)
  if filtered.length < proj.paragraphs.length then
    ((({ proj with paragraphs := filtered }).reorder_paragraphs).update_modified_time now, true)
  else
    ({ proj with paragraphs := filtered }, false)

/-- models.py Project.get_paragraph. -/
def Project.get_paragraph (proj : Project) (pid : String) : Option Paragraph :=
  proj.paragraphs.find? (fun p => p.id == pid)

/-- models.py Project.move_paragraph: remove the paragraph, clamp the new
position into [0, len], insert, renumber, bump modified_at. -/
def Project.move_paragraph (proj : Project) (pid : String) (new_position : Int)
    (now : Nat) : Project × Bool :=
  match proj.get_paragraph pid with
  | none => (proj, false)
  | some para =>
      let removed := proj.paragraphs.filter (fun p => p.id != pid)
      let np : Int := max 0 (min new_position (Int.ofNat removed.length))
      let proj' := { proj with paragraphs := py_insert removed np para }
      ((proj'.reorder_paragraphs).update_modified_time now, true)

/-- One editing operation on the Document aggregate, with its explicit
uuid/clock inputs. -/
inductive ProjectOp where
  | add (t : ParagraphType) (content : String) (position : Option Int) (pid : String) (now : Nat)
  | remove (pid : String) (now : Nat)
  | move (pid : String) (new_position : Int) (now : Nat)
deriving Repr

def Project.apply_op (proj : Project) : ProjectOp → Project
  | ProjectOp.add t c pos pid now => proj.add_paragraph t c pos pid now
  | ProjectOp.remove pid now => (proj.remove_paragraph pid now).1
  | ProjectOp.move pid np now => (proj.move_paragraph pid np now).1

def Project.apply_ops (proj : Project) (ops : List ProjectOp) : Project :=
  ops.foldl Project.apply_op proj

/-- The order invariant of the Document aggregate: consecutive order
fields starting at k.  orders_from 0 l says the order fields are exactly
0..n-1 matching the list positions. -/
def orders_from : Nat → List Paragraph → Bool
  | _, [] => true
  | k, p :: ps => p.order == k && orders_from (k + 1) ps

lemma orders_from_renumber (l : List Paragraph) : ∀ k, orders_from k (renumber_from k l) = true := by
  induction l with
  | nil => intro k; rfl
  | cons p ps ih =>
      intro k
      simp [renumber_from, orders_from, ih (k + 1)]

lemma orders_from_append (l : List Paragraph) (x : Paragraph) :
    ∀ k, orders_from k l = true → x.order = k + l.length → orders_from k (l ++ [x]) = true := by
  induction l with
  | nil =>
      intro k _ hx
      simp [orders_from, hx]
  | cons p ps ih =>
      intro k h hx
      simp only [orders_from, Bool.and_eq_true, beq_iff_eq] at h
      simp only [List.cons_append, orders_from, Bool.and_eq_true, beq_iff_eq]
      refine ⟨h.1, ih (k + 1) h.2 ?_⟩
      simp [hx, List.length_cons]
      omega

lemma orders_from_get (l : List Paragraph) :
    ∀ k, orders_from k l = true → ∀ i, (hi : i < l.length) → (l.get ⟨i, hi⟩).order = k + i := by
  induction l with
  | nil => intro k _ i hi; exact absurd hi (by simp)
  | cons p ps ih =>
      intro k h i hi
      simp only [orders_from, Bool.and_eq_true, beq_iff_eq] at h
      cases i with
      | zero => simpa using h.1
      | succ j =>
          have := ih (k + 1) h.2 j (by simpa using Nat.lt_of_succ_lt_succ hi)
          simpa [List.get, Nat.add_comm, Nat.add_assoc, Nat.add_left_comm] using this

lemma filter_eq_self_of_length_eq {α : Type} (f : α → Bool) (l : List α)
    (h : (l.filter f).length = l.length) : l.filter f = l := by
  induction l with
  | nil => rfl
  | cons x xs ih =>
      by_cases hx : f x
      · simp only [List.filter_cons, hx, if_true, List.length_cons] at h ⊢
        exact congrArg (x :: ·) (ih (Nat.succ_injective h))
      · exfalso
        simp only [List.filter_cons, hx] at h
        have := List.length_filter_le f xs
        simp only [Bool.false_eq_true, if_false, List.length_cons] at h
        omega

lemma orders_ok_apply_op (proj : Project) (op : ProjectOp)
    (h : orders_from 0 proj.paragraphs = true) :
    orders_from 0 (proj.apply_op op).paragraphs = true := by
  cases op with
  | add t c pos pid now =>
      cases pos with
      | none =>
          simp only [Project.apply_op, Project.add_paragraph, Project.update_modified_time]
          exact orders_from_append _ _ 0 h (by simp)
      | some i =>
          simp only [Project.apply_op, Project.add_paragraph, Project.update_modified_time,
            Project.reorder_paragraphs]
          exact orders_from_renumber _ 0
  | remove pid now =>
      simp only [Project.apply_op, Project.remove_paragraph]
      split
      · simp only [Project.update_modified_time, Project.reorder_paragraphs]
        exact orders_from_renumber _ 0
      · rename_i hlen
        have hle := List.length_filter_le (fun p => p.id != pid) proj.paragraphs
        have heq : (proj.paragraphs.filter (fun p => p.id != pid)).length
            = proj.paragraphs.length := by omega
        simpa [filter_eq_self_of_length_eq _ _ heq] using h
  | move pid np now =>
      simp only [Project.apply_op, Project.move_paragraph]
      cases proj.get_paragraph pid with
      | none => simpa using h
      | some para =>
          simp only [Project.update_modified_time, Project.reorder_paragraphs]
          exact orders_from_renumber _ 0

lemma orders_ok_apply_ops (ops : List ProjectOp) :
    ∀ (proj : Project), orders_from 0 proj.paragraphs = true →
      orders_from 0 (proj.apply_ops ops).paragraphs = true := by
  induction ops with
  | nil => intro proj h; exact h
  | cons op rest ih =>
      intro proj h
      exact ih (proj.apply_op op) (orders_ok_apply_op proj op h)

/-- C6: after any finite sequence of add/remove/move operations on a
Document whose blocks satisfy the order invariant, the order fields are
again exactly 0..n-1 and match the list positions. -/
theorem c6_order_invariant (proj : Project) (ops : List ProjectOp)
    (h : orders_from 0 proj.paragraphs = true) :
    orders_from 0 (proj.apply_ops ops).paragraphs = true ∧
      ∀ i, (hi : i < (proj.apply_ops ops).paragraphs.length) →
        ((proj.apply_ops ops).paragraphs.get ⟨i, hi⟩).order = i := by
  have hok := orders_ok_apply_ops ops proj h
  refine ⟨hok, fun i hi => ?_⟩
  simpa using orders_from_get _ 0 hok i hi

def c6_sample_ops : List ProjectOp :=
  [ProjectOp.add ParagraphType.introduction "A" none "b1" 1,
   ProjectOp.add ParagraphType.argument "B" none "b2" 2,
   ProjectOp.add ParagraphType.quote "Q" (some 1) "b3" 3,
   ProjectOp.move "b1" 2 4,
   ProjectOp.remove "b2" 5]

theorem c6_order_invariant_witness :
    orders_from 0 (mk_project "essay" "p1" 0).paragraphs = true ∧
      (orders_from 0 ((mk_project "essay" "p1" 0).apply_ops c6_sample_ops).paragraphs = true ∧
        ∀ i, (hi : i < ((mk_project "essay" "p1" 0).apply_ops c6_sample_ops).paragraphs.length) →
          (((mk_project "essay" "p1" 0).apply_ops c6_sample_ops).paragraphs.get ⟨i, hi⟩).order = i) :=
  ⟨by decide, c6_order_invariant (mk_project "essay" "p1" 0) c6_sample_ops (by decide)⟩

/-! ## Persistence store (services.py, class ProjectManager)

The SQLite database is embedded as two row lists; JSON encoding of the
metadata/formatting dictionaries is lossless for the embedded record
values and is modelled as the identity. -/

/-- A row of the projects table. -/
structure ProjectRow where
  id : String
  name : String
  created_at : Nat
  modified_at : Nat
  metadata : Metadata
  document_formatting : DocumentFormatting
deriving DecidableEq, Repr

/-- A row of the paragraphs table. -/
structure ParagraphRow where
  id : String
  project_id : String
  type : ParagraphType
  content : String
  created_at : Nat
  modified_at : Nat
  order : Nat
  formatting : Formatting
deriving DecidableEq, Repr

structure Database where
  projects : List ProjectRow
  paragraphs : List ParagraphRow
deriving DecidableEq, Repr

def Paragraph.to_row (p : Paragraph) (project_id : String) : ParagraphRow :=
  { id := p.id, project_id := project_id, type := p.type, content := p.content,
    created_at := p.created_at, modified_at := p.modified_at,
    order := p.order, formatting := p.formatting }

/-- models.py Paragraph.from_dict on a full stored row: the constructor
defaults are completely overwritten by the stored fields (a saved row
carries every formatting key), leaving exactly the row's values. -/
def ParagraphRow.to_paragraph (r : ParagraphRow) : Paragraph :=
  { id := r.id, type := r.type, content := r.content, created_at := r.created_at,
    modified_at := r.modified_at, order := r.order, formatting := r.formatting }

/-- services.py ProjectManager._save_project_to_db, success path: upsert of
the Document row (ON CONFLICT(id) keeps the stored created_at and refreshes
name, modified_at, metadata and document_formatting; the stored modified_at
is datetime.now() at save time, not the in-memory value), then DELETE of the
project's paragraph rows followed by INSERT of the current ones in list
order.  Serialization always succeeds for the embedded values, and primary
key enforcement on paragraph ids is not modelled. -/
def save_project_to_db (db : Database) (proj : Project) (now : Nat) : Database :=
  let row : ProjectRow :=
    { id := proj.id, name := proj.name, created_at := proj.created_at,
      modified_at := now, metadata := proj.metadata,
      document_formatting := proj.document_formatting }
  let projects' :=
    if db.projects.any (fun r => r.id == proj.id) then
      db.projects.map (fun r =>
        if r.id == proj.id then
          { r with name := row.name, modified_at := row.modified_at,
                   metadata := row.metadata, document_formatting := row.document_formatting }
        else r)
    else db.projects ++ [row]
  { projects := projects',
    paragraphs := db.paragraphs.filter (fun r => r.project_id != proj.id)
      ++ proj.paragraphs.map (fun p => p.to_row proj.id) }

/-- A file in the backup directory. -/
structure BackupFile where
  name : String
  mtime : Nat
deriving DecidableEq, Repr

/-- Stable insertion step for sorting newest-first (Python list.sort with
reverse=True is stable: an earlier file stays before later files with the
same mtime). -/
def insert_by_mtime_desc (f : BackupFile) : List BackupFile → List BackupFile
  | [] => [f]
  | g :: gs => if f.mtime < g.mtime then g :: insert_by_mtime_desc f gs else f :: g :: gs

def sort_by_mtime_desc : List BackupFile → List BackupFile
  | [] => []
  | f :: fs => insert_by_mtime_desc f (sort_by_mtime_desc fs)

/-- services.py ProjectManager._cleanup_old_backups — the later of the two
definitions of this name in the class body, which is the one Python keeps:
it globs every "*.db" file in the backup directory regardless of kind,
sorts newest first and unlinks everything beyond max_backups (default 3).
(The earlier definition, which globbed only "backup_*.db", is dead code.) -/
def cleanup_old_backups (files : List BackupFile) (max_backups : Nat) : List BackupFile :=
  (sort_by_mtime_desc files).take max_backups

/-- The environment a backup attempt runs in: the configuration toggle and
whether the filesystem steps succeed. -/
structure BackupEnv where
  backup_enabled : Bool
  db_file_exists : Bool
  copy_ok : Bool
deriving DecidableEq, Repr

def auto_backup_name (now : Nat) : String := "backup_" ++ toString now ++ ".db"

def manual_backup_name (now : Nat) : String := "manual_backup_" ++ toString now ++ ".db"

/-- services.py ProjectManager._create_database_backup: immediate success
when backups are disabled; failure (False) when the store file is missing
or a filesystem step raises, leaving the directory unchanged; otherwise a
timestamped copy is added and the directory pruned to the 3 newest .db
files. -/
def create_database_backup (env : BackupEnv) (now : Nat) (dir : List BackupFile) :
    List BackupFile × Bool :=
  if env.backup_enabled = false then (dir, true)
  else if env.db_file_exists = false then (dir, false)
  else if env.copy_ok = false then (dir, false)
  else (cleanup_old_backups (dir ++ [{ name := auto_backup_name now, mtime := now }]) 3, true)

/-- services.py ProjectManager.create_manual_backup: copies the store to a
manual_backup_* file and prunes the directory to the 10 newest .db files;
returns the created path, or None on failure. -/
def create_manual_backup (env : BackupEnv) (now : Nat) (dir : List BackupFile) :
    List BackupFile × Option String :=
  if env.db_file_exists = false then (dir, none)
  else if env.copy_ok = false then (dir, none)
  else (cleanup_old_backups (dir ++ [{ name := manual_backup_name now, mtime := now }]) 10,
        some (manual_backup_name now))

/-- The whole persistent state: the database plus the backup directory. -/
structure Store where
  db : Database
  backups : List BackupFile
deriving DecidableEq, Repr

/-- services.py ProjectManager.save_project (is_migration False): calls
_create_database_backup and discards its Boolean result, then runs the
transactional write.  When the store file is missing, the new connection
recreates an empty database without tables, the INSERT raises, the
transaction is rolled back and False is returned with no rows written;
when the store file exists the write commits and True is returned
(serialization of the embedded record values always succeeds, and
paragraph primary key conflicts are not modelled). -/
def save_project (env : BackupEnv) (now : Nat) (s : Store) (proj : Project) : Store × Bool :=
  let backups' := (create_database_backup env now s.backups).1
  if env.db_file_exists then
    ({ db := save_project_to_db s.db proj now, backups := backups' }, true)
  else
    ({ db := s.db, backups := backups' }, false)

/-- Stable insertion step for the SQL ORDER BY "order" ASC (and the
from_dict sort), embedded as a stable ascending insertion sort. -/
def insert_by_order_asc (r : ParagraphRow) : List ParagraphRow → List ParagraphRow
  | [] => [r]
  | g :: gs => if g.order < r.order then g :: insert_by_order_asc r gs else r :: g :: gs

def sort_by_order_asc : List ParagraphRow → List ParagraphRow
  | [] => []
  | r :: rs => insert_by_order_asc r (sort_by_order_asc rs)

/-- services.py ProjectManager.load_project composed with models.py
Project.from_dict: find the Document row, collect its paragraph rows
ordered by "order" (stable sort), rebuild the aggregate; from_dict then
sorts the paragraphs by order once more. -/
def load_project (db : Database) (pid : String) : Option Project :=
  match db.projects.find? (fun r => r.id == pid) with
  | none => none
  | some row =>
      let rows := sort_by_order_asc (db.paragraphs.filter (fun r => r.project_id == pid))
      some { id := row.id, name := row.name, created_at := row.created_at,
             modified_at := row.modified_at, metadata := row.metadata,
             document_formatting := row.document_formatting,
             paragraphs := (sort_by_order_asc rows).map ParagraphRow.to_paragraph }

/-- services.py ProjectManager.delete_project: DELETE FROM projects WHERE
id = ?, with the ON DELETE CASCADE foreign key (PRAGMA foreign_keys=ON)
removing the paragraph rows; returns True. -/
def delete_project (db : Database) (pid : String) : Database × Bool :=
  ({ projects := db.projects.filter (fun r => r.id != pid),
     paragraphs := db.paragraphs.filter (fun r => r.project_id != pid) }, true)

/-! ## Round trip, backup-failure behaviour, deletion, backup rotation -/

lemma find?_append_of_none {α : Type} (l l' : List α) (p : α → Bool)
    (h : l.find? p = none) : (l ++ l').find? p = l'.find? p := by
  induction l with
  | nil => rfl
  | cons x xs ih =>
      by_cases hx : p x
      · simp [List.find?_cons, hx] at h
      · simp only [List.find?_cons, hx] at h
        simpa [List.find?_cons, hx] using ih h

lemma find?_upsert_update (l : List ProjectRow) (pid n : String) (m : Nat)
    (md : Metadata) (df : DocumentFormatting)
    (hany : l.any (fun r => r.id == pid) = true) :
    ∃ r, (l.map (fun r =>
        if r.id == pid then
          { r with name := n, modified_at := m, metadata := md, document_formatting := df }
        else r)).find? (fun x => x.id == pid) = some r ∧
      r.id = pid ∧ r.name = n ∧ r.metadata = md ∧ r.document_formatting = df := by
  induction l with
  | nil => simp at hany
  | cons x xs ih =>
      by_cases hx : (x.id == pid) = true
      · refine ⟨{ x with name := n, modified_at := m, metadata := md, document_formatting := df }, ?_, by simpa using hx, rfl, rfl, rfl⟩
        simp only [List.map_cons, if_pos hx, List.find?_cons]
        have hx0 : (({ x with name := n, modified_at := m, metadata := md, document_formatting := df } : ProjectRow).id == pid) = true := hx
        simp [hx0]
      · have hany' : xs.any (fun r => r.id == pid) = true := by
          simp only [List.any_cons, hx, Bool.false_or] at hany
          exact hany
        obtain ⟨r, hfind, hprops⟩ := ih hany'
        refine ⟨r, ?_, hprops⟩
        have hx0 : (x.id == pid) = false := by simpa using hx
        simp only [List.map_cons, List.find?_cons, hx0, Bool.false_eq_true, if_false]
        exact hfind

lemma find?_save_project_row (db : Database) (proj : Project) (now : Nat) :
    ∃ r, (save_project_to_db db proj now).projects.find? (fun x => x.id == proj.id) = some r ∧
      r.id = proj.id ∧ r.name = proj.name ∧ r.metadata = proj.metadata ∧
      r.document_formatting = proj.document_formatting := by
  unfold save_project_to_db
  by_cases hany : db.projects.any (fun r => r.id == proj.id) = true
  · simp only [hany, if_true]
    exact find?_upsert_update db.projects proj.id proj.name now proj.metadata
      proj.document_formatting hany
  · simp only [Bool.not_eq_true] at hany
    simp only [hany, Bool.false_eq_true, if_false]
    have hnone : db.projects.find? (fun x => x.id == proj.id) = none := by
      rw [List.find?_eq_none]
      intro x hx
      rw [List.any_eq_false] at hany
      exact hany x hx
    rw [find?_append_of_none _ _ _ hnone]
    refine ⟨{ id := proj.id, name := proj.name, created_at := proj.created_at, modified_at := now, metadata := proj.metadata, document_formatting := proj.document_formatting }, ?_, rfl, rfl, rfl, rfl⟩
    simp [List.find?_cons]

lemma filter_paragraphs_save (db : Database) (proj : Project) (now : Nat) :
    (save_project_to_db db proj now).paragraphs.filter (fun r => r.project_id == proj.id)
      = proj.paragraphs.map (fun p => p.to_row proj.id) := by
  unfold save_project_to_db
  simp only [List.filter_append]
  have h1 : (db.paragraphs.filter (fun r => r.project_id != proj.id)).filter
      (fun r => r.project_id == proj.id) = [] := by
    rw [List.filter_eq_nil_iff]
    intro a ha
    have h2 := (List.mem_filter.mp ha).2
    simp only [bne_iff_ne, ne_eq] at h2
    simp [h2]
  have h2 : (proj.paragraphs.map (fun p => p.to_row proj.id)).filter
      (fun r => r.project_id == proj.id) = proj.paragraphs.map (fun p => p.to_row proj.id) := by
    rw [List.filter_eq_self]
    intro a ha
    obtain ⟨p, _, rfl⟩ := List.mem_map.mp ha
    simp [Paragraph.to_row]
  rw [h1, h2, List.nil_append]

/-- Consecutive order fields of stored paragraph rows, starting at k. -/
def row_orders_from : Nat → List ParagraphRow → Bool
  | _, [] => true
  | k, r :: rs => r.order == k && row_orders_from (k + 1) rs

lemma row_orders_from_map (l : List Paragraph) (pid : String) :
    ∀ k, orders_from k l = true →
      row_orders_from k (l.map (fun p => p.to_row pid)) = true := by
  induction l with
  | nil => intro k _; rfl
  | cons p ps ih =>
      intro k h
      simp only [orders_from, Bool.and_eq_true, beq_iff_eq] at h
      simp only [List.map_cons, row_orders_from, Bool.and_eq_true, beq_iff_eq]
      exact ⟨h.1, ih (k + 1) h.2⟩

lemma sort_by_order_asc_eq_self (l : List ParagraphRow) :
    ∀ k, row_orders_from k l = true → sort_by_order_asc l = l := by
  induction l with
  | nil => intro k _; rfl
  | cons r rs ih =>
      intro k h
      simp only [row_orders_from, Bool.and_eq_true, beq_iff_eq] at h
      rw [sort_by_order_asc, ih (k + 1) h.2]
      cases rs with
      | nil => rfl
      | cons g gs =>
          have hg : g.order = k + 1 := by
            have h2 := h.2
            simp only [row_orders_from, Bool.and_eq_true, beq_iff_eq] at h2
            exact h2.1
          rw [insert_by_order_asc, if_neg]
          rw [hg, h.1]
          omega

lemma to_row_to_paragraph (p : Paragraph) (pid : String) :
    (p.to_row pid).to_paragraph = p := rfl

/-- C1: saving a Document and loading it back by id returns a Document with
the same id, name, blocks (ids, order, contents, timestamps, paragraph
formatting), metadata and document formatting.  The hypothesis is the data
model's own order invariant (spec section 3); the document-level
modified_at is refreshed by save and is not part of the claimed
components.  The store file must exist for the save to commit at all. -/
theorem c1_save_load_round_trip (env : BackupEnv) (now : Nat) (s : Store) (proj : Project)
    (henv : env.db_file_exists = true)
    (h : orders_from 0 proj.paragraphs = true) :
    ∃ proj', load_project (save_project env now s proj).1.db proj.id = some proj' ∧
      proj'.id = proj.id ∧ proj'.name = proj.name ∧
      proj'.paragraphs = proj.paragraphs ∧
      proj'.metadata = proj.metadata ∧
      proj'.document_formatting = proj.document_formatting := by
  have hdb : (save_project env now s proj).1.db = save_project_to_db s.db proj now := by
    unfold save_project
    rw [henv]
    simp
  rw [hdb]
  obtain ⟨r, hfind, hid, hname, hmd, hdf⟩ := find?_save_project_row s.db proj now
  have hfilter := filter_paragraphs_save s.db proj now
  have hrows := row_orders_from_map proj.paragraphs proj.id 0 h
  unfold load_project
  simp only [hfind, hfilter]
  rw [sort_by_order_asc_eq_self _ 0 hrows, sort_by_order_asc_eq_self _ 0 hrows]
  refine ⟨_, rfl, hid, hname, ?_, hmd, hdf⟩
  rw [List.map_map]
  simp [Function.comp_def, to_row_to_paragraph]

def c1_store : Store := { db := { projects := [], paragraphs := [] }, backups := [] }

def c1_proj : Project :=
  { id := "p1", name := "essay", created_at := 0, modified_at := 0,
    paragraphs :=
      [{ mk_paragraph ParagraphType.introduction "A" "b1" 0 with order := 0 },
       { mk_paragraph ParagraphType.argument "B" "b2" 0 with order := 1 }],
    metadata := {}, document_formatting := {} }

def c1_env : BackupEnv := { backup_enabled := false, db_file_exists := true, copy_ok := true }

theorem c1_save_load_round_trip_witness :
    c1_env.db_file_exists = true ∧ orders_from 0 c1_proj.paragraphs = true ∧
      (∃ proj', load_project (save_project c1_env 7 c1_store c1_proj).1.db c1_proj.id = some proj' ∧
        proj'.id = c1_proj.id ∧ proj'.name = c1_proj.name ∧
        proj'.paragraphs = c1_proj.paragraphs ∧
        proj'.metadata = c1_proj.metadata ∧
        proj'.document_formatting = c1_proj.document_formatting) :=
  ⟨by decide, by decide,
    c1_save_load_round_trip c1_env 7 c1_store c1_proj (by decide) (by decide)⟩

def c2_env : BackupEnv := { backup_enabled := true, db_file_exists := true, copy_ok := false }

def c2_store : Store := { db := { projects := [], paragraphs := [] }, backups := [] }

def c2_proj : Project := mk_project "essay" "p1" 0

/-- C2 counterexample: backups are enabled, the store file is intact, but
creating the pre-write backup copy fails (the copy step raises and
_create_database_backup returns False); save_project nevertheless reports
success and writes the Document row — the claimed abort does not
happen. -/
theorem c2_counterexample :
    (create_database_backup c2_env 1 c2_store.backups).2 = false ∧
      (save_project c2_env 1 c2_store c2_proj).2 = true ∧
      (save_project c2_env 1 c2_store c2_proj).1.db ≠ c2_store.db := by
  refine ⟨rfl, rfl, ?_⟩
  intro h
  have : (save_project c2_env 1 c2_store c2_proj).1.db.projects.length
      = c2_store.db.projects.length := by rw [h]
  simp [save_project, save_project_to_db, c2_env, c2_store, c2_proj, mk_project] at this

/-- C2 amended: a failed pre-write backup does not abort the save.  The
backup result is discarded, so whenever the transactional write itself
can proceed (the store file exists), the write commits and save reports
success regardless of the backup toggle and of whether the backup copy
succeeded or failed. -/
theorem c2_amended_backup_failure_ignored (env : BackupEnv) (now : Nat)
    (s : Store) (proj : Project) (henv : env.db_file_exists = true) :
    (save_project env now s proj).1.db = save_project_to_db s.db proj now ∧
      (save_project env now s proj).2 = true := by
  unfold save_project
  rw [henv]
  exact ⟨by simp, by simp⟩

theorem c2_amended_backup_failure_ignored_witness :
    c2_env.db_file_exists = true ∧
      ((save_project c2_env 3 c2_store c2_proj).1.db
          = save_project_to_db c2_store.db c2_proj 3 ∧
        (save_project c2_env 3 c2_store c2_proj).2 = true) :=
  ⟨rfl, c2_amended_backup_failure_ignored c2_env 3 c2_store c2_proj rfl⟩

def c3_db : Database :=
  { projects := [{ id := "p1", name := "essay", created_at := 0, modified_at := 0,
                   metadata := {}, document_formatting := {} }],
    paragraphs := [{ id := "b1", project_id := "p1", type := ParagraphType.introduction,
                     content := "A", created_at := 0, modified_at := 0, order := 0,
                     formatting := default_formatting ParagraphType.introduction }] }

/-- C3 counterexample: deleting the only stored Document leaves the entire
persistent state with no copy of it — the Document and Block rows are
erased immediately and a subsequent load finds nothing; no trash area
exists to recover from. -/
theorem c3_counterexample :
    (delete_project c3_db "p1").1.projects = [] ∧
      (delete_project c3_db "p1").1.paragraphs = [] ∧
      load_project (delete_project c3_db "p1").1 "p1" = none := by decide

/-- C3 amended: delete(id) permanently removes the Document row and, via
the cascade, every one of its Block rows; afterwards the Document can no
longer be loaded.  There is no trash area. -/
theorem c3_amended_delete_is_permanent (db : Database) (pid : String) :
    load_project (delete_project db pid).1 pid = none ∧
      ((delete_project db pid).1.paragraphs.all (fun r => r.project_id != pid)) = true := by
  constructor
  · unfold load_project delete_project
    have hnone : (db.projects.filter (fun r => r.id != pid)).find? (fun r => r.id == pid) = none := by
      rw [List.find?_eq_none]
      intro x hx
      have h2 := (List.mem_filter.mp hx).2
      simp only [bne_iff_ne, ne_eq] at h2
      simp [h2]
    simp only [hnone]
  · rw [List.all_eq_true]
    intro r hr
    exact (List.mem_filter.mp hr).2

lemma mem_insert_by_mtime_desc {x f : BackupFile} {l : List BackupFile}
    (h : x ∈ insert_by_mtime_desc f l) : x = f ∨ x ∈ l := by
  induction l with
  | nil =>
      rw [insert_by_mtime_desc] at h
      exact Or.inl (List.mem_singleton.mp h)
  | cons g gs ih =>
      by_cases hc : f.mtime < g.mtime
      · rw [insert_by_mtime_desc, if_pos hc] at h
        rcases List.mem_cons.mp h with h1 | h2
        · exact Or.inr (List.mem_cons.mpr (Or.inl h1))
        · rcases ih h2 with h3 | h4
          · exact Or.inl h3
          · exact Or.inr (List.mem_cons.mpr (Or.inr h4))
      · rw [insert_by_mtime_desc, if_neg hc] at h
        rcases List.mem_cons.mp h with h1 | h2
        · exact Or.inl h1
        · exact Or.inr h2

lemma mem_sort_by_mtime_desc {x : BackupFile} {l : List BackupFile}
    (h : x ∈ sort_by_mtime_desc l) : x ∈ l := by
  induction l with
  | nil => exact h
  | cons f fs ih =>
      rw [sort_by_mtime_desc] at h
      rcases mem_insert_by_mtime_desc h with h1 | h2
      · subst h1; exact List.mem_cons_self _ _
      · exact List.mem_cons.mpr (Or.inr (ih h2))

lemma pairwise_insert_by_mtime_desc {f : BackupFile} {l : List BackupFile}
    (h : l.Pairwise (fun a b => b.mtime ≤ a.mtime)) :
    (insert_by_mtime_desc f l).Pairwise (fun a b => b.mtime ≤ a.mtime) := by
  induction l with
  | nil => simp [insert_by_mtime_desc]
  | cons g gs ih =>
      rw [List.pairwise_cons] at h
      by_cases hc : f.mtime < g.mtime
      · rw [insert_by_mtime_desc, if_pos hc, List.pairwise_cons]
        refine ⟨fun y hy => ?_, ih h.2⟩
        rcases mem_insert_by_mtime_desc hy with h1 | h2
        · subst h1; omega
        · exact h.1 y h2
      · rw [insert_by_mtime_desc, if_neg hc, List.pairwise_cons]
        refine ⟨fun y hy => ?_, List.pairwise_cons.mpr h⟩
        rcases List.mem_cons.mp hy with h1 | h2
        · subst h1; omega
        · have := h.1 y h2; omega

lemma pairwise_sort_by_mtime_desc (l : List BackupFile) :
    (sort_by_mtime_desc l).Pairwise (fun a b => b.mtime ≤ a.mtime) := by
  induction l with
  | nil => simp [sort_by_mtime_desc]
  | cons f fs ih =>
      rw [sort_by_mtime_desc]
      exact pairwise_insert_by_mtime_desc ih

lemma sort_by_mtime_desc_eq_self {l : List BackupFile}
    (h : l.Pairwise (fun a b => b.mtime ≤ a.mtime)) : sort_by_mtime_desc l = l := by
  induction l with
  | nil => rfl
  | cons f fs ih =>
      rw [List.pairwise_cons] at h
      rw [sort_by_mtime_desc, ih h.2]
      cases fs with
      | nil => rfl
      | cons g gs =>
          rw [insert_by_mtime_desc, if_neg]
          have := h.1 g (List.mem_cons_self g gs)
          omega

lemma sort_append_newest {d : List BackupFile} {f : BackupFile}
    (h : ∀ x ∈ d, x.mtime < f.mtime) :
    sort_by_mtime_desc (d ++ [f]) = f :: sort_by_mtime_desc d := by
  induction d with
  | nil => rfl
  | cons x xs ih =>
      rw [List.cons_append, sort_by_mtime_desc,
        ih (fun y hy => h y (List.mem_cons.mpr (Or.inr hy)))]
      rw [insert_by_mtime_desc, if_pos (h x (List.mem_cons_self x xs))]
      rw [sort_by_mtime_desc]

lemma create_database_backup_fresh (d : List BackupFile) (t : Nat)
    (h : ∀ x ∈ d, x.mtime < t) :
    (create_database_backup ⟨true, true, true⟩ t d).1
      = { name := auto_backup_name t, mtime := t } :: (sort_by_mtime_desc d).take 2 := by
  have hstep : (create_database_backup ⟨true, true, true⟩ t d).1
      = cleanup_old_backups (d ++ [{ name := auto_backup_name t, mtime := t }]) 3 := rfl
  rw [hstep, cleanup_old_backups, sort_append_newest h]
  rfl

def c8_dir : List BackupFile :=
  [{ name := "manual_backup_1.db", mtime := 1 },
   { name := "manual_backup_2.db", mtime := 2 },
   { name := "manual_backup_3.db", mtime := 3 }]

/-- C8 counterexample: the backup directory holds just three manual
backups (well under the claimed manual retention of 10), yet creating one
automatic backup prunes the directory to 3 files total and deletes the
oldest manual backup — the retention rules do not each apply to their own
kind, because the surviving _cleanup_old_backups globs every *.db file. -/
theorem c8_counterexample :
    ({ name := "manual_backup_1.db", mtime := 1 } : BackupFile)
        ∉ (create_database_backup ⟨true, true, true⟩ 4 c8_dir).1 ∧
      (create_database_backup ⟨true, true, true⟩ 4 c8_dir).2 = true := by decide

/-- C8 amended: retention acts on every .db file in the shared backup
directory regardless of kind — an automatic backup prunes to the 3 newest
files overall (possibly deleting manual backups), a manual backup prunes
to the 10 newest overall.  In particular, creating three automatic backups
at fresh increasing times leaves exactly those three, newest first. -/
theorem c8_amended_rotation (d : List BackupFile) (t1 t2 t3 : Nat)
    (h1 : ∀ x ∈ d, x.mtime < t1) (h12 : t1 < t2) (h23 : t2 < t3) :
    (create_database_backup ⟨true, true, true⟩ t3
      ((create_database_backup ⟨true, true, true⟩ t2
        ((create_database_backup ⟨true, true, true⟩ t1 d).1)).1)).1
    = [{ name := auto_backup_name t3, mtime := t3 },
       { name := auto_backup_name t2, mtime := t2 },
       { name := auto_backup_name t1, mtime := t1 }] := by
  have hs_pair := pairwise_sort_by_mtime_desc d
  have hs_mem : ∀ x ∈ (sort_by_mtime_desc d).take 2, x.mtime < t1 :=
    fun x hx => h1 x (mem_sort_by_mtime_desc (List.take_subset 2 _ hx))
  have e1 := create_database_backup_fresh d t1 h1
  rw [e1]
  have hd1_lt : ∀ x ∈ ({ name := auto_backup_name t1, mtime := t1 } : BackupFile)
      :: (sort_by_mtime_desc d).take 2, x.mtime < t2 := by
    intro x hx
    rcases List.mem_cons.mp hx with h | h
    · subst h; exact h12
    · exact lt_trans (hs_mem x h) h12
  have hd1_sorted : (({ name := auto_backup_name t1, mtime := t1 } : BackupFile)
      :: (sort_by_mtime_desc d).take 2).Pairwise (fun a b => b.mtime ≤ a.mtime) := by
    rw [List.pairwise_cons]
    refine ⟨fun y hy => ?_, hs_pair.sublist ((sort_by_mtime_desc d).take_sublist 2)⟩
    have := hs_mem y hy
    simp only []
    omega
  have e2 := create_database_backup_fresh _ t2 hd1_lt
  rw [e2, sort_by_mtime_desc_eq_self hd1_sorted]
  have hd2_lt : ∀ x ∈ ({ name := auto_backup_name t2, mtime := t2 } : BackupFile)
      :: (({ name := auto_backup_name t1, mtime := t1 } : BackupFile)
        :: (sort_by_mtime_desc d).take 2).take 2, x.mtime < t3 := by
    intro x hx
    rcases List.mem_cons.mp hx with h | h
    · subst h; exact h23
    · exact lt_trans (hd1_lt x (List.take_subset 2 _ h)) h23
  have hd2_sorted : (({ name := auto_backup_name t2, mtime := t2 } : BackupFile)
      :: (({ name := auto_backup_name t1, mtime := t1 } : BackupFile)
        :: (sort_by_mtime_desc d).take 2).take 2).Pairwise (fun a b => b.mtime ≤ a.mtime) := by
    rw [List.pairwise_cons]
    constructor
    · intro y hy
      have := List.take_subset 2 _ hy
      rcases List.mem_cons.mp this with h | h
      · subst h; simp only []; omega
      · have := hs_mem y h; simp only []; omega
    · exact hd1_sorted.sublist (List.take_sublist 2 _)
  have e3 := create_database_backup_fresh _ t3 hd2_lt
  rw [e3, sort_by_mtime_desc_eq_self hd2_sorted]
  rfl

theorem c8_amended_rotation_witness :
    (∀ x ∈ c8_dir, x.mtime < 10) ∧ (10 : Nat) < 11 ∧ (11 : Nat) < 12 ∧
      (create_database_backup ⟨true, true, true⟩ 12
        ((create_database_backup ⟨true, true, true⟩ 11
          ((create_database_backup ⟨true, true, true⟩ 10 c8_dir).1)).1)).1
      = [{ name := auto_backup_name 12, mtime := 12 },
         { name := auto_backup_name 11, mtime := 11 },
         { name := auto_backup_name 10, mtime := 10 }] :=
  ⟨by decide, by decide, by decide,
    c8_amended_rotation c8_dir 10 11 12 (by decide) (by decide) (by decide)⟩

/-! ## Grouping engine (services.py, ExportService)

Each exporter walks the ordered paragraph list with a running buffer, a
"run starts with Introduction" flag and a "last was quote" flag, and emits
one output paragraph per flushed run or standalone block.  The emitted
units are modelled as GroupedUnit values; the writer-level framing (text
underlines, indent strings, ODT/PDF style dictionaries) is rendering and
maps one-to-one onto the unit styles. -/

/-- The style of one grouped output unit: a run that began with an
Introduction block ("Introduction" ODT style / indented TXT line /
introduction_style in PDF), a run that did not ("Normal"), or a standalone
block of the given kind. -/
inductive UnitStyle where
  | leading
  | continuation
  | standalone_title_1
  | standalone_title_2
  | standalone_quote
deriving DecidableEq, Repr

structure GroupedUnit where
  style : UnitStyle
  text : String
deriving DecidableEq, Repr

/-- The Python str.isspace() character set, which str.strip() (and
str.split()) removes: ASCII whitespace 09-0D and 20, the separator
controls 1C-1F, NEL (85), NBSP (A0), the Ogham space mark, the Unicode
space separators 2000-200A, the line and paragraph separators, the narrow
and medium mathematical spaces and the ideographic space. -/
def is_py_whitespace (c : Char) : Bool :=
  (0x09 ≤ c.toNat && c.toNat ≤ 0x0d) || c.toNat == 0x20 ||
  (0x1c ≤ c.toNat && c.toNat ≤ 0x1f) || c.toNat == 0x85 || c.toNat == 0xa0 ||
  c.toNat == 0x1680 || (0x2000 ≤ c.toNat && c.toNat ≤ 0x200a) ||
  c.toNat == 0x2028 || c.toNat == 0x2029 || c.toNat == 0x202f ||
  c.toNat == 0x205f || c.toNat == 0x3000

def py_strip (s : String) : String :=
  String.mk (((s.data.dropWhile is_py_whitespace).reverse.dropWhile is_py_whitespace).reverse)

/-- The three sequential str.replace calls of _generate_odt_content
('&' then '<' then '>'); since no replacement text contains a character a
later pass rewrites, the chain equals this single character-wise pass. -/
def esc_char : Char → List Char
  | '&' => "&amp;".data
  | '<' => "&lt;".data
  | '>' => "&gt;".data
  | c => [c]

def xml_escape (s : String) : String := String.mk (s.data.flatMap esc_char)

/-- Python " ".join. -/
def join_space : List String → String
  | [] => ""
  | [x] => x
  | x :: xs => x ++ " " ++ join_space xs

/-- TITLE_1, TITLE_2 and QUOTE each immediately become their own output
unit in every exporter. -/
def is_standalone : ParagraphType → Bool
  | ParagraphType.title_1 => true
  | ParagraphType.title_2 => true
  | ParagraphType.quote => true
  | _ => false

def standalone_style : ParagraphType → UnitStyle
  | ParagraphType.title_1 => UnitStyle.standalone_title_1
  | ParagraphType.title_2 => UnitStyle.standalone_title_2
  | _ => UnitStyle.standalone_quote

/-- The shared lookahead of all three exporters: the accumulated run is
flushed when the next paragraph is an INTRODUCTION or a standalone type,
or at the end of the document. -/
def next_is_new_paragraph : List Paragraph → Bool
  | [] => true
  | q :: _ => q.type == ParagraphType.introduction || is_standalone q.type

def run_style (starts_with_introduction : Bool) : UnitStyle :=
  if starts_with_introduction then UnitStyle.leading else UnitStyle.continuation

/-- The "write any accumulated content first" block shared by the TXT and
ODT exporters: a non-empty buffer is emitted as one unit, indented
("Introduction" style) exactly when the run began with an Introduction. -/
def flush_run (buf : List String) (starts_intro : Bool) : List GroupedUnit :=
  if buf.isEmpty then [] else [{ style := run_style starts_intro, text := join_space buf }]

/-- services.py ExportService._export_txt, the grouping loop.  State:
the accumulated contents, the paragraph_starts_with_introduction flag and
the last_was_quote flag.  Every content is stripped on entry.  The three
standalone branches of the source are identical up to the emitted style
and the last_was_quote value they leave behind. -/
def txt_groups_aux : List Paragraph → List String → Bool → Bool → List GroupedUnit
  | [], buf, starts_intro, _ => flush_run buf starts_intro
  | p :: rest, buf, starts_intro, last_was_quote =>
    let content := py_strip p.content
    if is_standalone p.type then
      flush_run buf starts_intro ++
        { style := standalone_style p.type, text := content } ::
          txt_groups_aux rest [] false (p.type == ParagraphType.quote)
    else
      let should_start := p.type == ParagraphType.introduction || last_was_quote || buf.isEmpty
      let flushed := should_start && !buf.isEmpty
      let out1 := if flushed then flush_run buf starts_intro else []
      let buf1 := if flushed then [] else buf
      let si1 := if flushed then false else starts_intro
      let si2 :=
        if buf1.isEmpty then
          if p.type == ParagraphType.introduction then true
          else if last_was_quote then false
          else si1
        else si1
      let buf2 := buf1 ++ [content]
      if next_is_new_paragraph rest then
        out1 ++ flush_run buf2 si2 ++ txt_groups_aux rest [] false false
      else
        out1 ++ txt_groups_aux rest buf2 si2 false

def export_txt_groups (ps : List Paragraph) : List GroupedUnit :=
  txt_groups_aux ps [] false false

/-- services.py ExportService._generate_odt_content, the grouping loop.
Identical control flow to the TXT loop; the content is XML-escaped but NOT
stripped on entry, so standalone units keep surrounding whitespace, while
continuation contents are stripped at accumulation time
(current_paragraph_content.append(content.strip())). -/
def odt_groups_aux : List Paragraph → List String → Bool → Bool → List GroupedUnit
  | [], buf, starts_intro, _ => flush_run buf starts_intro
  | p :: rest, buf, starts_intro, last_was_quote =>
    let content := xml_escape p.content
    if is_standalone p.type then
      flush_run buf starts_intro ++
        { style := standalone_style p.type, text := content } ::
          odt_groups_aux rest [] false (p.type == ParagraphType.quote)
    else
      let should_start := p.type == ParagraphType.introduction || last_was_quote || buf.isEmpty
      let flushed := should_start && !buf.isEmpty
      let out1 := if flushed then flush_run buf starts_intro else []
      let buf1 := if flushed then [] else buf
      let si1 := if flushed then false else starts_intro
      let si2 :=
        if buf1.isEmpty then
          if p.type == ParagraphType.introduction then true
          else if last_was_quote then false
          else si1
        else si1
      let buf2 := buf1 ++ [py_strip content]
      if next_is_new_paragraph rest then
        out1 ++ flush_run buf2 si2 ++ odt_groups_aux rest [] false false
      else
        out1 ++ odt_groups_aux rest buf2 si2 false

def export_odt_groups (ps : List Paragraph) : List GroupedUnit :=
  odt_groups_aux ps [] false false

/-- The PDF flush: the emitted style is the tracked
current_paragraph_style.  In every reachable state the style is set
whenever the buffer is non-empty; the getD default is never consulted. -/
def pdf_flush (buf : List String) (sty : Option UnitStyle) : List GroupedUnit :=
  if buf.isEmpty then []
  else [{ style := sty.getD UnitStyle.continuation, text := join_space buf }]

/-- services.py ExportService._export_pdf, the grouping loop.  Same
control flow again, contents stripped on entry, but the run style is
carried in current_paragraph_style (reset to None at every flush) next to
the starts-with-introduction flag, which the PDF path writes but never
reads. -/
def pdf_groups_aux : List Paragraph → List String → Option UnitStyle → Bool → Bool →
    List GroupedUnit
  | [], buf, sty, _, _ => pdf_flush buf sty
  | p :: rest, buf, sty, starts_intro, last_was_quote =>
    let content := py_strip p.content
    if is_standalone p.type then
      pdf_flush buf sty ++
        { style := standalone_style p.type, text := content } ::
          pdf_groups_aux rest [] none false (p.type == ParagraphType.quote)
    else
      let should_start := p.type == ParagraphType.introduction || last_was_quote || buf.isEmpty
      let flushed := should_start && !buf.isEmpty
      let out1 := if flushed then pdf_flush buf sty else []
      let buf1 := if flushed then [] else buf
      let sty1 := if flushed then none else sty
      let si1 := if flushed then false else starts_intro
      let state2 :=
        if buf1.isEmpty then
          if p.type == ParagraphType.introduction then (true, some UnitStyle.leading)
          else if last_was_quote then (false, some UnitStyle.continuation)
          else (si1, if sty1 = none then some UnitStyle.continuation else sty1)
        else (si1, sty1)
      let buf2 := buf1 ++ [content]
      if next_is_new_paragraph rest then
        out1 ++ pdf_flush buf2 state2.2 ++ pdf_groups_aux rest [] none false false
      else
        out1 ++ pdf_groups_aux rest buf2 state2.2 state2.1 false

def export_pdf_groups (ps : List Paragraph) : List GroupedUnit :=
  pdf_groups_aux ps [] none false false

def c4_input : List Paragraph :=
  [mk_paragraph ParagraphType.introduction "A" "b1" 0,
   mk_paragraph ParagraphType.argument "B" "b2" 0,
   mk_paragraph ParagraphType.conclusion "C" "b3" 0]

/-- C4: the chain Introduction "A", Argument "B", Conclusion "C" groups
into exactly one unit, Leading (first-line indented), with the space-join
"A B C". -/
theorem c4_grouping_chain :
    export_txt_groups c4_input = [{ style := UnitStyle.leading, text := "A B C" }] := by
  decide

def c5_input : List Paragraph :=
  [mk_paragraph ParagraphType.introduction "A" "b1" 0,
   mk_paragraph ParagraphType.quote "Q" "b2" 0,
   mk_paragraph ParagraphType.argument "B" "b3" 0]

/-- C5: Introduction "A", Quote "Q", Argument "B" groups into exactly
three units — Leading "A", Standalone(Quote) "Q", then "B" with the
post-quote rule resolved to Continuation (no first-line indent) — and all
three exporters apply that same rule on this input. -/
theorem c5_grouping_quote_interruption :
    export_txt_groups c5_input =
      [{ style := UnitStyle.leading, text := "A" },
       { style := UnitStyle.standalone_quote, text := "Q" },
       { style := UnitStyle.continuation, text := "B" }] ∧
      export_odt_groups c5_input = export_txt_groups c5_input ∧
      export_pdf_groups c5_input = export_txt_groups c5_input := by
  refine ⟨by decide, by decide, by decide⟩

def c7_input : List Paragraph := [mk_paragraph ParagraphType.quote "Q " "b1" 0]

/-- C7 counterexample: on a single Quote block whose content carries a
trailing space, the TXT exporter's grouping strips the text ("Q") while
the ODT exporter's does not ("Q "), so the exporters do not compute equal
grouped texts. -/
theorem c7_counterexample :
    export_odt_groups c7_input ≠ export_txt_groups c7_input := by decide

lemma odt_groups_aux_eq_txt (ps : List Paragraph)
    (h : ∀ p ∈ ps, py_strip p.content = p.content ∧ xml_escape p.content = p.content) :
    ∀ buf si lq, odt_groups_aux ps buf si lq = txt_groups_aux ps buf si lq := by
  induction ps with
  | nil => intro buf si lq; rfl
  | cons p rest ih =>
      intro buf si lq
      have hp := h p (List.mem_cons_self p rest)
      have ih' := ih (fun q hq => h q (List.mem_cons.mpr (Or.inr hq)))
      rw [odt_groups_aux, txt_groups_aux]
      simp only [hp.1, hp.2, ih']

lemma isEmpty_append_singleton (l : List String) (x : String) :
    (l ++ [x]).isEmpty = false := by
  cases l <;> rfl

lemma pdf_flush_eq_flush_run (buf : List String) (si : Bool) (sty : Option UnitStyle)
    (h2 : buf.isEmpty = false → sty = some (run_style si)) :
    pdf_flush buf sty = flush_run buf si := by
  cases hb : buf.isEmpty
  · rw [pdf_flush, flush_run, hb, h2 hb]
    simp
  · rw [pdf_flush, flush_run, hb]
    simp


lemma pdf_groups_aux_eq_txt (ps : List Paragraph) :
    ∀ buf si lq sty,
      (buf.isEmpty = true → sty = none ∧ si = false) →
      (buf.isEmpty = false → sty = some (run_style si)) →
      pdf_groups_aux ps buf sty si lq = txt_groups_aux ps buf si lq := by
  induction ps with
  | nil =>
      intro buf si lq sty h1 h2
      rw [pdf_groups_aux, txt_groups_aux]
      exact pdf_flush_eq_flush_run buf si sty h2
  | cons p rest ih =>
      intro buf si lq sty h1 h2
      have ihE : ∀ b, pdf_groups_aux rest [] none false b = txt_groups_aux rest [] false b :=
        fun b => ih [] false b none (fun _ => ⟨rfl, rfl⟩) (fun hc => by simp at hc)
      rw [pdf_groups_aux, txt_groups_aux]
      by_cases hstand : is_standalone p.type = true
      · simp only [hstand, if_true, pdf_flush_eq_flush_run buf si sty h2,
          ihE (p.type == ParagraphType.quote)]
      · have hstand' : is_standalone p.type = false := by simpa using hstand
        simp only [hstand', Bool.false_eq_true, if_false]
        cases hb : buf.isEmpty with
        | true =>
            obtain ⟨hsty, hsi⟩ := h1 hb
            subst hsty; subst hsi
            by_cases hintro : (p.type == ParagraphType.introduction) = true
            · simp only [hb, hintro, Bool.true_or, Bool.or_true, Bool.not_true,
                Bool.and_false, Bool.false_eq_true, if_false, if_true, List.nil_append,
                List.isEmpty_nil]
              cases hnext : next_is_new_paragraph rest with
              | true =>
                  simp only [if_true]
                  rw [ihE false]
                  simp [pdf_flush, flush_run, run_style, isEmpty_append_singleton]
              | false =>
                  simp only [Bool.false_eq_true, if_false]
                  exact ih _ true false _
                    (fun hc => by simp [isEmpty_append_singleton] at hc) (fun _ => rfl)
            · have hintro' : (p.type == ParagraphType.introduction) = false := by
                simpa using hintro
              by_cases hlq : lq = true
              · simp only [hb, hintro', hlq, Bool.false_eq_true, if_false, Bool.false_or,
                  Bool.true_or, Bool.or_true, Bool.not_true, Bool.and_false, if_true,
                  List.nil_append, List.isEmpty_nil]
                cases hnext : next_is_new_paragraph rest with
                | true =>
                    simp only [if_true]
                    rw [ihE false]
                    simp [pdf_flush, flush_run, run_style, isEmpty_append_singleton]
                | false =>
                    simp only [Bool.false_eq_true, if_false]
                    exact ih _ false false _
                      (fun hc => by simp [isEmpty_append_singleton] at hc) (fun _ => rfl)
              · have hlq' : lq = false := by simpa using hlq
                simp only [hb, hintro', hlq', Bool.false_eq_true, if_false, Bool.false_or,
                  Bool.or_true, Bool.not_true, Bool.and_false, if_true,
                  List.nil_append, List.isEmpty_nil]
                cases hnext : next_is_new_paragraph rest with
                | true =>
                    simp only [if_true]
                    rw [ihE false]
                    simp [pdf_flush, flush_run, run_style, isEmpty_append_singleton]
                | false =>
                    simp only [Bool.false_eq_true, if_false]
                    exact ih _ false false _
                      (fun hc => by simp [isEmpty_append_singleton] at hc) (fun _ => rfl)
        | false =>
            have hsty := h2 hb
            subst hsty
            by_cases hss : (p.type == ParagraphType.introduction || lq) = true
            · by_cases hintro : (p.type == ParagraphType.introduction) = true
              · simp only [hb, hintro, hss, Bool.true_or, Bool.or_false, Bool.not_false,
                  Bool.and_true, Bool.true_and, if_true, List.isEmpty_nil, List.nil_append]
                cases hnext : next_is_new_paragraph rest with
                | true =>
                    simp only [if_true]
                    rw [ihE false]
                    simp [pdf_flush, flush_run, run_style, isEmpty_append_singleton, hb]
                | false =>
                    simp only [Bool.false_eq_true, if_false]
                    rw [pdf_flush_eq_flush_run buf si _ h2]
                    exact congrArg (fun l => flush_run buf si ++ l)
                      (ih _ true false _
                        (fun hc => by simp [isEmpty_append_singleton] at hc) (fun _ => rfl))
              · have hintro' : (p.type == ParagraphType.introduction) = false := by
                  simpa using hintro
                have hlq : lq = true := by
                  rcases Bool.or_eq_true_iff.mp hss with hc | hc
                  · exact absurd hc hintro
                  · exact hc
                simp only [hb, hintro', hlq, hss, Bool.false_eq_true, if_false,
                  Bool.false_or, Bool.or_false, Bool.not_false, Bool.and_true,
                  Bool.true_and, if_true, List.isEmpty_nil, List.nil_append]
                cases hnext : next_is_new_paragraph rest with
                | true =>
                    simp only [if_true]
                    rw [ihE false]
                    simp [pdf_flush, flush_run, run_style, isEmpty_append_singleton, hb]
                | false =>
                    simp only [Bool.false_eq_true, if_false]
                    rw [pdf_flush_eq_flush_run buf si _ h2]
                    exact congrArg (fun l => flush_run buf si ++ l)
                      (ih _ false false _
                        (fun hc => by simp [isEmpty_append_singleton] at hc) (fun _ => rfl))
            · have hss' : (p.type == ParagraphType.introduction || lq) = false := by
                simpa using hss
              simp only [hb, hss', Bool.or_false, Bool.false_or, Bool.false_and,
                Bool.and_false, Bool.false_eq_true, if_false]
              cases hnext : next_is_new_paragraph rest with
              | true =>
                  simp only [if_true]
                  rw [ihE false]
                  simp [pdf_flush, flush_run, run_style, isEmpty_append_singleton]
              | false =>
                  simp only [Bool.false_eq_true, if_false]
                  exact ih _ si false _
                    (fun hc => by simp [isEmpty_append_singleton] at hc) (fun _ => rfl)

/-- C7 amended: the three exporters' groupings compute the same unit
partition, order, texts and styles for every block sequence whose contents
are unchanged by stripping and by XML escaping; in general the ODT
grouping differs by not stripping standalone contents and by escaping. -/
theorem c7_amended_groupings_agree (ps : List Paragraph)
    (h : ∀ p ∈ ps, py_strip p.content = p.content ∧ xml_escape p.content = p.content) :
    export_odt_groups ps = export_txt_groups ps ∧
      export_pdf_groups ps = export_txt_groups ps := by
  constructor
  · exact odt_groups_aux_eq_txt ps h [] false false
  · exact pdf_groups_aux_eq_txt ps [] false false none
      (fun _ => ⟨rfl, rfl⟩) (fun hc => by simp at hc)

def c7_witness_input : List Paragraph :=
  [mk_paragraph ParagraphType.title_1 "T" "b1" 0,
   mk_paragraph ParagraphType.introduction "A" "b2" 0,
   mk_paragraph ParagraphType.argument "B" "b3" 0,
   mk_paragraph ParagraphType.quote "Q" "b4" 0,
   mk_paragraph ParagraphType.conclusion "C" "b5" 0]

theorem c7_amended_groupings_agree_witness :
    (∀ p ∈ c7_witness_input,
        py_strip p.content = p.content ∧ xml_escape p.content = p.content) ∧
      (export_odt_groups c7_witness_input = export_txt_groups c7_witness_input ∧
        export_pdf_groups c7_witness_input = export_txt_groups c7_witness_input) :=
  ⟨by decide, c7_amended_groupings_agree c7_witness_input (by decide)⟩

def c9_para : Paragraph := mk_paragraph ParagraphType.title_1 "Heading" "b1" 0

/-- C9 counterexample: a Title1 block's font_size is overridden to 20
through update_formatting; a later update that does not mention font_size
(it only clears bold) resets the size to the Title1 default 18 instead of
leaving the override untouched. -/
theorem c9_counterexample :
    (c9_para.update_formatting { font_size := some 20 } 1).formatting.font_size = 20 ∧
      ((c9_para.update_formatting { font_size := some 20 } 1).update_formatting
          { bold := some false } 2).formatting.font_size = 18 := by decide

/-- C9 amended: for Title1/Title2 blocks any update_formatting call that
does not name font_size resets it to the type default (18 or 16),
discarding earlier overrides, while every other field not named in the
update is untouched; for the other block types font_size is untouched
too. -/
theorem c9_amended_title_font_size_reset (p : Paragraph) (u : FormattingUpdates) (now : Nat)
    (hu : u.font_size = none) :
    (p.update_formatting u now).formatting.font_size =
        (if p.type = ParagraphType.title_1 then 18
         else if p.type = ParagraphType.title_2 then 16
         else p.formatting.font_size) ∧
      (p.update_formatting u now).formatting.font_family
        = u.font_family.getD p.formatting.font_family ∧
      (p.update_formatting u now).formatting.line_spacing10
        = u.line_spacing10.getD p.formatting.line_spacing10 ∧
      (p.update_formatting u now).formatting.alignment
        = u.alignment.getD p.formatting.alignment ∧
      (p.update_formatting u now).formatting.indent_first_line10
        = u.indent_first_line10.getD p.formatting.indent_first_line10 ∧
      (p.update_formatting u now).formatting.indent_left10
        = u.indent_left10.getD p.formatting.indent_left10 ∧
      (p.update_formatting u now).formatting.indent_right10
        = u.indent_right10.getD p.formatting.indent_right10 ∧
      (p.update_formatting u now).formatting.bold = u.bold.getD p.formatting.bold ∧
      (p.update_formatting u now).formatting.italic = u.italic.getD p.formatting.italic ∧
      (p.update_formatting u now).formatting.underline
        = u.underline.getD p.formatting.underline := by
  unfold Paragraph.update_formatting Formatting.apply_updates
  by_cases h1 : p.type = ParagraphType.title_1
  · simp [h1, hu]
  · by_cases h2 : p.type = ParagraphType.title_2
    · simp [h1, h2, hu]
    · simp [h1, h2, hu]

theorem c9_amended_title_font_size_reset_witness :
    (({ bold := some false } : FormattingUpdates).font_size = none) ∧
      ((c9_para.update_formatting { bold := some false } 2).formatting.font_size =
          (if c9_para.type = ParagraphType.title_1 then 18
           else if c9_para.type = ParagraphType.title_2 then 16
           else c9_para.formatting.font_size) ∧
        (c9_para.update_formatting { bold := some false } 2).formatting.font_family
          = ({ bold := some false } : FormattingUpdates).font_family.getD
              c9_para.formatting.font_family ∧
        (c9_para.update_formatting { bold := some false } 2).formatting.line_spacing10
          = ({ bold := some false } : FormattingUpdates).line_spacing10.getD
              c9_para.formatting.line_spacing10 ∧
        (c9_para.update_formatting { bold := some false } 2).formatting.alignment
          = ({ bold := some false } : FormattingUpdates).alignment.getD
              c9_para.formatting.alignment ∧
        (c9_para.update_formatting { bold := some false } 2).formatting.indent_first_line10
          = ({ bold := some false } : FormattingUpdates).indent_first_line10.getD
              c9_para.formatting.indent_first_line10 ∧
        (c9_para.update_formatting { bold := some false } 2).formatting.indent_left10
          = ({ bold := some false } : FormattingUpdates).indent_left10.getD
              c9_para.formatting.indent_left10 ∧
        (c9_para.update_formatting { bold := some false } 2).formatting.indent_right10
          = ({ bold := some false } : FormattingUpdates).indent_right10.getD
              c9_para.formatting.indent_right10 ∧
        (c9_para.update_formatting { bold := some false } 2).formatting.bold
          = ({ bold := some false } : FormattingUpdates).bold.getD c9_para.formatting.bold ∧
        (c9_para.update_formatting { bold := some false } 2).formatting.italic
          = ({ bold := some false } : FormattingUpdates).italic.getD c9_para.formatting.italic ∧
        (c9_para.update_formatting { bold := some false } 2).formatting.underline
          = ({ bold := some false } : FormattingUpdates).underline.getD
              c9_para.formatting.underline) :=
  ⟨rfl, c9_amended_title_font_size_reset c9_para { bold := some false } 2 rfl⟩

lemma filter_ne_length_lt_iff (l : List Paragraph) (pid : String) :
    ((l.filter (fun p => p.id != pid)).length < l.length)
      ↔ l.any (fun p => p.id == pid) = true := by
  induction l with
  | nil => simp
  | cons x xs ih =>
      by_cases heq : x.id = pid
      · have h1 : (x.id != pid) = false := by simp [heq]
        have h2 : (x.id == pid) = true := by simp [heq]
        simp only [List.filter_cons, h1, Bool.false_eq_true, if_false, List.any_cons, h2,
          Bool.true_or, List.length_cons, iff_true]
        have := List.length_filter_le (fun p => p.id != pid) xs
        omega
      · have h1 : (x.id != pid) = true := by simp [bne_iff_ne, heq]
        have h2 : (x.id == pid) = false := by simp [heq]
        simp only [List.filter_cons, h1, if_true, List.any_cons, h2, Bool.false_or,
          List.length_cons]
        constructor
        · intro h
          exact ih.mp (by omega)
        · intro h
          have := ih.mpr h
          omega

/-- C10: remove_paragraph returns True exactly when a paragraph with the
given id was present, and when it returns False the whole Document value —
paragraph list, order fields and modified_at — is unchanged. -/
theorem c10_remove_paragraph_atomic (proj : Project) (pid : String) (now : Nat) :
    (proj.remove_paragraph pid now).2 = proj.paragraphs.any (fun p => p.id == pid) ∧
      ((proj.remove_paragraph pid now).2 = false →
        (proj.remove_paragraph pid now).1 = proj) := by
  unfold Project.remove_paragraph
  by_cases hlt : (proj.paragraphs.filter (fun p => p.id != pid)).length
      < proj.paragraphs.length
  · rw [if_pos hlt]
    refine ⟨((filter_ne_length_lt_iff _ _).mp hlt).symm, ?_⟩
    intro h
    simp at h
  · rw [if_neg hlt]
    have hany : proj.paragraphs.any (fun p => p.id == pid) = false := by
      rw [← Bool.not_eq_true]
      intro hc
      exact hlt ((filter_ne_length_lt_iff _ _).mpr hc)
    refine ⟨hany.symm, fun _ => ?_⟩
    have hle := List.length_filter_le (fun p => p.id != pid) proj.paragraphs
    have heq : (proj.paragraphs.filter (fun p => p.id != pid)).length
        = proj.paragraphs.length := by omega
    have hfix := filter_eq_self_of_length_eq _ _ heq
    show ({ proj with paragraphs := proj.paragraphs.filter (fun p => p.id != pid) } : Project)
      = proj
    rw [hfix]

def c10_proj : Project :=
  { id := "p1", name := "essay", created_at := 0, modified_at := 0,
    paragraphs := [mk_paragraph ParagraphType.introduction "A" "b1" 0],
    metadata := {}, document_formatting := {} }

theorem c10_remove_paragraph_atomic_witness :
    ((c10_proj.remove_paragraph "zzz" 5).2
        = c10_proj.paragraphs.any (fun p => p.id == "zzz")) ∧
      (c10_proj.remove_paragraph "zzz" 5).1 = c10_proj :=
  ⟨(c10_remove_paragraph_atomic c10_proj "zzz" 5).1,
    (c10_remove_paragraph_atomic c10_proj "zzz" 5).2 (by decide)⟩
